import Mathlib

/-!
Verification of the markup-extension resolution subsystem of rstcheck-core
(`rstcheck_core/_docutils.py` and `rstcheck_core/_sphinx.py`).

The Python modules are shallowly embedded: the process-wide docutils
directive/role registries become an explicit `Registries` state threaded
through the registration functions, Python dicts become insertion-ordered
association lists with last-write-wins assignment, the two `re.findall`
scans over `rst_prolog` become an executable scanner for exactly those two
regular expressions, and the fallible operations (which can raise
`FeatureUnavailable` via `_extras.install_guard`) return `Except`.
-/

namespace Rstcheck

/-! ## Python dict model

A Python `dict[str, V]` is modelled as an insertion-ordered association
list.  `dinsert` is `d[k] = v`: if the key is present its value is replaced
in place, otherwise the pair is appended.  `dlookup` is `d.get(k)`. -/

def dinsert {α : Type} : List (String × α) → String → α → List (String × α)
  | [], k, v => [(k, v)]
  | (k', v') :: t, k, v =>
    if k' == k then (k, v) :: t else (k', v') :: dinsert t k v

def dlookup {α : Type} : List (String × α) → String → Option α
  | [], _ => none
  | (k', v') :: t, k => if k' == k then some v' else dlookup t k

/-- The value of the last pair in `ps` whose key is `k`, if any.  This is the
"later writer wins" reading order used to characterise dict building. -/
def lastAssoc : List (String × String) → String → Option String
  | [], _ => none
  | (a, b) :: t, k =>
    match lastAssoc t k with
    | some v => some v
    | none => if a == k then some b else none

theorem dlookup_dinsert {α : Type} (m : List (String × α)) (k j : String) (v : α) :
    dlookup (dinsert m k v) j = if k == j then some v else dlookup m j := by
  induction m with
  | nil => simp [dinsert, dlookup]
  | cons p t ih =>
    obtain ⟨a, b⟩ := p
    by_cases hak : a = k
    · subst hak
      simp only [dinsert, beq_self_eq_true, if_true, dlookup]
      by_cases haj : a = j <;> simp [haj]
    · have hak' : (a == k) = false := by simp [hak]
      by_cases haj : a = j
      · subst haj
        have hkj : (k == a) = false := by
          simp
          exact fun h => hak h.symm
        simp [dinsert, hak', dlookup, hkj]
      · have haj' : (a == j) = false := by simp [haj]
        simp [dinsert, hak', dlookup, haj', ih]

theorem dlookup_foldl_dinsert (ps : List (String × String))
    (m : List (String × String)) (k : String) :
    dlookup (ps.foldl (fun acc p => dinsert acc p.1 p.2) m) k =
      match lastAssoc ps k with
      | some v => some v
      | none => dlookup m k := by
  induction ps generalizing m with
  | nil => simp [lastAssoc]
  | cons p t ih =>
    obtain ⟨a, b⟩ := p
    simp only [List.foldl_cons, ih, lastAssoc]
    cases lastAssoc t k with
    | some v => simp
    | none =>
      simp only [dlookup_dinsert]
      by_cases hak : a = k <;> simp [hak]

/-! ## docutils node and handler model (`_docutils.py`)

Role handlers are defunctionalised: `ignoreRole` is the module-level
`ignore_role` stub and `substHandler stored` is the closure created inside
`register_substitution_handler` for a stored replacement text.  Directive
handler classes are `IgnoredDirective` and `CodeBlockDirective`. -/

inductive Node : Type
  | text (s : String)
  deriving DecidableEq, Repr

inductive SystemMessage : Type
  | mk (msg : String)
  deriving DecidableEq, Repr

inductive DirectiveHandler : Type
  | ignored
  | codeBlock
  deriving DecidableEq, Repr

inductive RoleHandler : Type
  | ignoreRole
  | substHandler (stored : String)
  deriving DecidableEq, Repr

/-- Invocation of a role handler by the inliner, with the call-site
arguments `(name, rawtext, text, lineno)`.

`ignoreRole` embeds `ignore_role`, whose body is `return ([], [])`.

`substHandler stored` embeds the closure `handler` defined inside
`register_substitution_handler`: its body is
`return [docutils.nodes.Text(text)], []` where `text` is the *innermost*
binding of that name, i.e. the handler's own call-site parameter — the
enclosing function's `text` (the stored replacement value) is shadowed and
never read. -/
def RoleHandler.apply : RoleHandler → String → String → String → Nat →
    List Node × List SystemMessage
  | RoleHandler.ignoreRole, _, _, _, _ => ([], [])
  | RoleHandler.substHandler _, _, _, text, _ => ([Node.text text], [])

/-- The process-wide docutils registries
(`docutils.parsers.rst.directives._directives` and
`docutils.parsers.rst.roles._roles`), made explicit as threaded state. -/
structure Registries : Type where
  directives : List (String × DirectiveHandler)
  roles : List (String × RoleHandler)
  deriving DecidableEq, Repr

/-- Modelled from the spec: `docutils.parsers.rst.directives.register_directive`
is the external parsing engine's directive-registration hook, a plain mapping
assignment into its registry — last write wins and no error is ever raised on
collision. -/
def register_directive (reg : Registries) (name : String)
    (handler : DirectiveHandler) : Registries :=
  { reg with directives := dinsert reg.directives name handler }

/-- Modelled from the spec: `docutils.parsers.rst.roles.register_local_role`
is the external parsing engine's role-registration hook, a plain mapping
assignment into its registry — last write wins and no error is ever raised on
collision. -/
def register_local_role (reg : Registries) (name : String)
    (handler : RoleHandler) : Registries :=
  { reg with roles := dinsert reg.roles name handler }

/-- Embeds `ignore_directives_and_roles`: registers `IgnoredDirective` for
every directive name, then `ignore_role` for every role name, in sequence. -/
def ignore_directives_and_roles (reg : Registries)
    (directives roles : List String) : Registries :=
  let reg2 := directives.foldl
    (fun r directive => register_directive r directive DirectiveHandler.ignored) reg
  roles.foldl (fun r role => register_local_role r role RoleHandler.ignoreRole) reg2

/-- Embeds `register_substitution_handler`: registers the `handler` closure
(holding `text` as its intended replacement) as a local role under the key
`"substitution-" ++ name`. -/
def register_substitution_handler (reg : Registries) (name text : String) :
    Registries :=
  register_local_role reg ("substitution-" ++ name) (RoleHandler.substHandler text)

/-- Embeds `register_substitutions_and_targets`: the body loops over
`substitutions.items()` registering a substitution handler for each pair; the
`targets` parameter is never read by the body. -/
def register_substitutions_and_targets (reg : Registries)
    (substitutions targets : List (String × String)) : Registries :=
  substitutions.foldl (fun r p => register_substitution_handler r p.1 p.2) reg

/-- The docutils `literal_block` node as produced by `CodeBlockDirective.run`:
`literal_block(code, code)` with the class `"code-block"` appended and the
`language` attribute set. -/
structure LiteralBlock : Type where
  rawsource : String
  text : String
  classes : List String
  language : String
  deriving DecidableEq, Repr

/-- The state of a directive instance: `self.arguments` and `self.content`. -/
structure CodeBlockDirective : Type where
  arguments : List String
  content : List String
  deriving DecidableEq, Repr

/-- Embeds `CodeBlockDirective.run`: `self.arguments[0]` with `IndexError`
caught and defaulted to `""`, body joined with `"\n"`, one literal block. -/
def CodeBlockDirective.run (self : CodeBlockDirective) : List LiteralBlock :=
  let language :=
    match self.arguments.get? 0 with
    | some lang => lang
    | none => ""
  let code := String.intercalate "\n" self.content
  [{ rawsource := code, text := code, classes := ["code-block"],
     language := language }]

/-- Embeds `register_code_directive`: when Sphinx is installed the whole body
is skipped; otherwise each of the three names is registered to
`CodeBlockDirective` unless its ignore flag is set. -/
def register_code_directive
    (sphinx_installed ignore_code_directive ignore_codeblock_directive
      ignore_sourcecode_directive : Bool) (reg : Registries) : Registries :=
  if sphinx_installed = false then
    let reg1 :=
      if ignore_code_directive = false then
        register_directive reg "code" DirectiveHandler.codeBlock
      else reg
    let reg2 :=
      if ignore_codeblock_directive = false then
        register_directive reg1 "code-block" DirectiveHandler.codeBlock
      else reg1
    if ignore_sourcecode_directive = false then
      register_directive reg2 "sourcecode" DirectiveHandler.codeBlock
    else reg2
  else reg

/-! ## Prolog scanner (`load_sphinx_if_available`, lines 117-138)

The source applies `re.findall` with the two raw patterns
`\.\. \|([^|]+)\| replace:: (.+)` and `\.\. _([^:]+): (.+)` to the whole
`rst_prolog` string.  Both patterns are backtracking-free: each negated
character class is immediately followed by the very character it excludes,
so the greedy `+` is forced to take the maximal run, and the trailing
greedy `(.+)` (where `.` excludes `\n`) has nothing after it.  The scanner
below implements exactly that: `matchSubDef`/`matchLinkTarget` try one
pattern at the current position and return the two capture groups and the
rest of the input, and `findallFuel` replays `re.findall`'s left-to-right
scan of non-overlapping matches, advancing one character on failure. -/

def matchLiteral : List Char → List Char → Option (List Char)
  | [], s => some s
  | _ :: _, [] => none
  | l :: ls, c :: cs => if l == c then matchLiteral ls cs else none

/-- Greedy `[class]+`: the maximal (nonempty) run of characters satisfying
`keep`, with the remainder. -/
def matchClassPlus (keep : Char → Bool) (s : List Char) :
    Option (List Char × List Char) :=
  let run := s.takeWhile keep
  let rest := s.dropWhile keep
  if run.isEmpty then none else some (run, rest)

/-- One attempted match of `\.\. \|([^|]+)\| replace:: (.+)` at the head of
the input, returning the `(NAME, VALUE)` capture groups and the rest. -/
def matchSubDef (s : List Char) : Option ((String × String) × List Char) :=
  (matchLiteral (".. |".toList) s).bind (fun s1 =>
    (matchClassPlus (fun c => c != '|') s1).bind (fun nm =>
      (matchLiteral ("| replace:: ".toList) nm.2).bind (fun s3 =>
        (matchClassPlus (fun c => c != '\n') s3).map (fun vl =>
          ((String.mk nm.1, String.mk vl.1), vl.2)))))

/-- One attempted match of `\.\. _([^:]+): (.+)` at the head of the input,
returning the `(NAME, VALUE)` capture groups and the rest. -/
def matchLinkTarget (s : List Char) : Option ((String × String) × List Char) :=
  (matchLiteral (".. _".toList) s).bind (fun s1 =>
    (matchClassPlus (fun c => c != ':') s1).bind (fun nm =>
      (matchLiteral (": ".toList) nm.2).bind (fun s3 =>
        (matchClassPlus (fun c => c != '\n') s3).map (fun vl =>
          ((String.mk nm.1, String.mk vl.1), vl.2)))))

/-- The `re.findall` scan: at each position try the matcher; on success
record the groups and continue after the match, otherwise advance one
character.  The fuel argument only serves termination; both matchers
consume at least one character on success, so fuel `s.length` is never
exhausted (`findallFuel_fuel_irrelevant` below). -/
def findallFuel (m : List Char → Option ((String × String) × List Char)) :
    Nat → List Char → List (String × String)
  | 0, _ => []
  | _ + 1, [] => []
  | fuel + 1, c :: cs =>
    match m (c :: cs) with
    | some (p, rest) => p :: findallFuel m fuel rest
    | none => findallFuel m fuel cs

def findall (m : List Char → Option ((String × String) × List Char))
    (s : String) : List (String × String) :=
  findallFuel m s.toList.length s.toList

/-- `re.findall(sub_pattern, prolog)`. -/
def findall_subs (prolog : String) : List (String × String) :=
  findall matchSubDef prolog

/-- `re.findall(link_pattern, prolog)`. -/
def findall_links (prolog : String) : List (String × String) :=
  findall matchLinkTarget prolog

theorem matchLiteral_length_le (l s r : List Char) :
    matchLiteral l s = some r → r.length ≤ s.length := by
  induction l generalizing s with
  | nil =>
    intro h
    simp only [matchLiteral, Option.some.injEq] at h
    simp [← h]
  | cons x xs ih =>
    intro h
    cases s with
    | nil => simp [matchLiteral] at h
    | cons c cs =>
      simp only [matchLiteral] at h
      by_cases hxc : x == c
      · simp only [hxc, if_true] at h
        exact Nat.le_trans (ih cs h) (Nat.le_succ _)
      · simp [hxc] at h

theorem matchClassPlus_length_lt (keep : Char → Bool) (s run rest : List Char) :
    matchClassPlus keep s = some (run, rest) → rest.length < s.length := by
  intro h
  simp only [matchClassPlus] at h
  by_cases hrun : (s.takeWhile keep).isEmpty
  · simp [hrun] at h
  · simp only [hrun, if_false, Option.some.injEq, Prod.mk.injEq] at h
    obtain ⟨hrun_eq, hrest_eq⟩ := h
    have hsplit : s.takeWhile keep ++ s.dropWhile keep = s :=
      List.takeWhile_append_dropWhile keep s
    have hlen : (s.takeWhile keep).length + (s.dropWhile keep).length = s.length := by
      rw [← List.length_append, hsplit]
    have hpos : 0 < (s.takeWhile keep).length := by
      cases htw : s.takeWhile keep with
      | nil => rw [htw] at hrun; simp [List.isEmpty] at hrun
      | cons a t => simp [htw]
    omega

theorem matchSubDef_consumes (s : List Char) (p : String × String)
    (r : List Char) : matchSubDef s = some (p, r) → r.length < s.length := by
  intro h
  simp only [matchSubDef, Option.bind_eq_some, Option.map_eq_some'] at h
  obtain ⟨s1, h1, nm, h2, s3, h3, vl, h4, h5⟩ := h
  have hr : r = vl.2 := by
    have := congrArg Prod.snd h5
    simpa using this.symm
  have e1 := matchLiteral_length_le _ _ _ h1
  have e2 := matchClassPlus_length_lt _ _ _ _ (by rw [← h2])
  have e3 := matchLiteral_length_le _ _ _ h3
  have e4 := matchClassPlus_length_lt _ _ _ _ (by rw [← h4])
  have hrl : r.length = vl.2.length := by rw [hr]
  omega

theorem matchLinkTarget_consumes (s : List Char) (p : String × String)
    (r : List Char) : matchLinkTarget s = some (p, r) → r.length < s.length := by
  intro h
  simp only [matchLinkTarget, Option.bind_eq_some, Option.map_eq_some'] at h
  obtain ⟨s1, h1, nm, h2, s3, h3, vl, h4, h5⟩ := h
  have hr : r = vl.2 := by
    have := congrArg Prod.snd h5
    simpa using this.symm
  have e1 := matchLiteral_length_le _ _ _ h1
  have e2 := matchClassPlus_length_lt _ _ _ _ (by rw [← h2])
  have e3 := matchLiteral_length_le _ _ _ h3
  have e4 := matchClassPlus_length_lt _ _ _ _ (by rw [← h4])
  have hrl : r.length = vl.2.length := by rw [hr]
  omega

/-- Faithfulness of the fuel encoding: for a matcher that consumes at least
one character per match, any fuel of at least the input length gives the
same result, so `findall` never truncates the scan. -/
theorem findallFuel_fuel_irrelevant
    (m : List Char → Option ((String × String) × List Char))
    (hm : ∀ s p r, m s = some (p, r) → r.length < s.length) :
    ∀ fuel fuel' s, s.length ≤ fuel → s.length ≤ fuel' →
      findallFuel m fuel s = findallFuel m fuel' s := by
  intro fuel
  induction fuel with
  | zero =>
    intro fuel' s hf hf'
    have hs : s = [] := by
      cases s with
      | nil => rfl
      | cons c cs => simp at hf
    subst hs
    cases fuel' <;> simp [findallFuel]
  | succ f ih =>
    intro fuel' s hf hf'
    cases s with
    | nil => cases fuel' <;> simp [findallFuel]
    | cons c cs =>
      cases fuel' with
      | zero => simp at hf'
      | succ f' =>
        simp only [findallFuel]
        cases hmc : m (c :: cs) with
        | some pr =>
          obtain ⟨p, rest⟩ := pr
          have hlt := hm _ _ _ hmc
          simp only [List.length_cons] at hf hf' hlt
          have := ih f' rest (by omega) (by omega)
          simp [this]
        | none =>
          simp only [List.length_cons] at hf hf'
          have := ih f' cs (by omega) (by omega)
          simp [this]

/-! ## Substitution and target extraction (`load_sphinx_if_available`) -/

/-- Embeds the dict building of `load_sphinx_if_available` lines 113-148:
the `substitutions` dict is filled from the prolog `re.findall` matches in
order (`substitutions[name] = value`), then from the
`html_context['substitutions']` items in order, each write overwriting any
earlier one for the same key. -/
def extract_substitutions (rst_prolog : String)
    (context_substitutions : List (String × String)) : List (String × String) :=
  let subs := findall_subs rst_prolog
  let m := subs.foldl (fun acc p => dinsert acc p.1 p.2) []
  context_substitutions.foldl (fun acc p => dinsert acc p.1 p.2) m

/-- Embeds the `targets` dict building of `load_sphinx_if_available` lines
132-138: filled from the link-pattern `re.findall` matches in order. -/
def extract_targets (rst_prolog : String) : List (String × String) :=
  (findall_links rst_prolog).foldl (fun acc p => dinsert acc p.1 p.2) []

/-! ## Sphinx module (`_sphinx.py`) -/

inductive SphinxError : Type
  | featureUnavailable (feature : String)
  deriving DecidableEq, Repr

/-- Modelled from the spec: `rstcheck_core._extras.install_guard` is part of
this repository but not under `src/`; per the spec's error taxonomy it raises
`FeatureUnavailable` exactly when the optional toolchain it guards is not
installed, and otherwise does nothing. -/
def install_guard (installed : Bool) (feature : String) :
    Except SphinxError Unit :=
  if installed then Except.ok () else Except.error (SphinxError.featureUnavailable feature)

/-- A Sphinx domain class: its `name` attribute and the keys of its
`directives` and `roles` class-level tables, in iteration order. -/
structure Domain : Type where
  name : String
  directives : List String
  roles : List String
  deriving DecidableEq, Repr

/-- The external Sphinx installation as observed by `_sphinx.py`:
whether it is installed, the `StandardDomain` tables, the four fixed domain
classes iterated by `get_sphinx_directives_and_roles`, and the contents of
the dynamic registries `sphinx.util.docutils.directives._directives` /
`roles._roles`. -/
structure SphinxEnv : Type where
  installed : Bool
  std_directives : List String
  std_roles : List String
  c : Domain
  cpp : Domain
  javascript : Domain
  python : Domain
  registered_directives : List String
  registered_roles : List String
  deriving DecidableEq, Repr

/-- Embeds `get_sphinx_directives_and_roles`: after the install guard, start
from the `StandardDomain` tables, then for each domain in the fixed list
`[CDomain, CPPDomain, JavaScriptDomain, PythonDomain]` append the bare names
followed by the `"<domain.name>:<item>"` qualified names, and finally append
the dynamically registered names. -/
def get_sphinx_directives_and_roles (env : SphinxEnv) :
    Except SphinxError (List String × List String) :=
  match install_guard env.installed "sphinx" with
  | Except.error e => Except.error e
  | Except.ok _ =>
    let step := fun (acc : List String × List String) (domain : Domain) =>
      let domain_directives := domain.directives
      let domain_roles := domain.roles
      (acc.1 ++ domain_directives ++
        domain_directives.map (fun item => domain.name ++ ":" ++ item),
       acc.2 ++ domain_roles ++
        domain_roles.map (fun item => domain.name ++ ":" ++ item))
    let acc := [env.c, env.cpp, env.javascript, env.python].foldl step
      (env.std_directives, env.std_roles)
    Except.ok (acc.1 ++ env.registered_directives, acc.2 ++ env.registered_roles)

def _DIRECTIVE_WHITELIST : List String := ["code", "code-block", "sourcecode", "include"]

def _ROLE_WHITELIST : List String := []

/-- Embeds `filter_whitelisted_directives_and_roles`: keep exactly the
elements not equal to any whitelist entry. -/
def filter_whitelisted_directives_and_roles (directives roles : List String) :
    List String × List String :=
  (directives.filter (fun d => !(_DIRECTIVE_WHITELIST.contains d)),
   roles.filter (fun r => !(_ROLE_WHITELIST.contains r)))

/-- Embeds `load_sphinx_ignores`: install guard, build the catalog, filter
the whitelist out, then register ignore handlers for everything left. -/
def load_sphinx_ignores (env : SphinxEnv) (reg : Registries) :
    Except SphinxError Registries :=
  match install_guard env.installed "sphinx" with
  | Except.error e => Except.error e
  | Except.ok _ =>
    match get_sphinx_directives_and_roles env with
    | Except.error e => Except.error e
    | Except.ok (directives, roles) =>
      let fr := filter_whitelisted_directives_and_roles directives roles
      Except.ok (ignore_directives_and_roles reg fr.1 fr.2)

/-! ## ConfRootLocator (`find_sphinx_confdir`)

A directory is a list of path components with the most specific component
first; the filesystem root is `[]` and `parent` is `List.tail`, so that, as
with `pathlib`, the root is its own parent.  `conf_exists d` is the
filesystem check `(d / "conf.py").exists()`. -/

/-- Embeds `find_sphinx_confdir`: `while current_dir != current_dir.parent`
(i.e. while not at the root) test for `conf.py` and return the current
directory on a hit, else move to the parent; return `none` once the root is
reached.  The root itself is never tested. -/
def find_sphinx_confdir (conf_exists : List String → Bool) :
    List String → Option (List String)
  | [] => none
  | c :: cs =>
    if conf_exists (c :: cs) then some (c :: cs) else find_sphinx_confdir conf_exists cs

/-- The full ancestor chain of a directory: itself, each ancestor, and the
filesystem root. -/
def ancestorChain : List String → List (List String)
  | [] => [[]]
  | c :: cs => (c :: cs) :: ancestorChain cs

/-- The ancestor chain without the filesystem root. -/
def nonRootChain : List String → List (List String)
  | [] => []
  | c :: cs => (c :: cs) :: nonRootChain cs

/-- Modelled from the spec claim for comparison with the code: walk the chain
of ancestor directories (up to and including the filesystem root) and return
the first one where the marker exists. -/
def locate_per_claim (conf_exists : List String → Bool)
    (start : List String) : Option (List String) :=
  (ancestorChain start).find? conf_exists

/-! ## Helpers for stating the claims -/

def isOkB {ε α : Type} : Except ε α → Bool
  | Except.ok _ => true
  | Except.error _ => false

/-- The per-domain contribution to the catalog: bare names followed by
domain-qualified names. -/
def domainNames (d : Domain) (pick : Domain → List String) : List String :=
  pick d ++ (pick d).map (fun item => d.name ++ ":" ++ item)

def okCatalog (e : Except SphinxError (List String × List String)) :
    List String × List String :=
  match e with
  | Except.ok p => p
  | Except.error _ => ([], [])

/-- A small concrete Sphinx installation used for concrete evaluations:
note that `"member"` occurs in two domains. -/
def envW : SphinxEnv where
  installed := true
  std_directives := ["code", "note"]
  std_roles := ["ref"]
  c := ⟨"c", ["member"], ["expr"]⟩
  cpp := ⟨"cpp", ["member"], []⟩
  javascript := ⟨"js", [], []⟩
  python := ⟨"py", ["function"], ["func"]⟩
  registered_directives := ["mydir"]
  registered_roles := ["myrole"]

def regW : Registries := ⟨[], []⟩

/-- The registries produced by `load_sphinx_ignores` on the concrete
installation `envW`, starting from empty registries. -/
def reg2W : Registries :=
  match load_sphinx_ignores envW regW with
  | Except.ok r => r
  | Except.error _ => regW

/-! ## Support lemmas -/

theorem count_filter_pred (p : String → Bool) (l : List String) (x : String) :
    (l.filter p).count x = if p x then l.count x else 0 := by
  induction l with
  | nil => simp
  | cons a t ih =>
    by_cases hax : a = x
    · subst hax
      cases hpa : p a with
      | true => simp [List.filter_cons, hpa, List.count_cons, ih]
      | false => simp [List.filter_cons, hpa, List.count_cons, ih]
    · have hax' : (a == x) = false := by simp [hax]
      cases hpa : p a with
      | true => simp [List.filter_cons, hpa, List.count_cons, ih, hax']
      | false => simp [List.filter_cons, hpa, List.count_cons, ih, hax']

theorem count_filter_whitelist (l wl : List String) (x : String) :
    (l.filter (fun d => !(wl.contains d))).count x =
      if x ∈ wl then 0 else l.count x := by
  rw [count_filter_pred]
  by_cases hx : x ∈ wl
  · have hc : wl.contains x = true := List.elem_iff.mpr hx
    simp [hc, hx]
  · have hc : wl.contains x = false := by
      cases h : wl.contains x with
      | false => rfl
      | true => exact absurd (List.elem_iff.mp h) hx
    simp [hc, hx]

theorem not_mem_filter_whitelist (l : List String) (w : String)
    (hw : w ∈ _DIRECTIVE_WHITELIST) :
    ¬ w ∈ l.filter (fun d => !(_DIRECTIVE_WHITELIST.contains d)) := by
  intro hmem
  have h2 := (List.mem_filter.mp hmem).2
  have hcw : _DIRECTIVE_WHITELIST.contains w = true := List.elem_iff.mpr hw
  rw [hcw] at h2
  simp at h2

theorem dlookup_foldl_register_directive (ds : List String) (reg : Registries)
    (w : String) (hw : ¬ w ∈ ds) :
    dlookup ((ds.foldl
      (fun r directive => register_directive r directive DirectiveHandler.ignored)
      reg).directives) w = dlookup reg.directives w := by
  induction ds generalizing reg with
  | nil => rfl
  | cons d t ih =>
    have hdw : ¬ w ∈ t := fun h => hw (List.mem_cons_of_mem _ h)
    have hne : d ≠ w := fun h => hw (h ▸ List.mem_cons_self _ _)
    simp only [List.foldl_cons]
    rw [ih _ hdw]
    simp only [register_directive]
    rw [dlookup_dinsert]
    simp [hne]

theorem roles_foldl_preserves_directives (roles : List String) (reg : Registries) :
    ((roles.foldl (fun r role => register_local_role r role RoleHandler.ignoreRole)
      reg)).directives = reg.directives := by
  induction roles generalizing reg with
  | nil => rfl
  | cons r t ih =>
    simp only [List.foldl_cons]
    rw [ih]
    rfl

/-! ## The claims -/

/-- C1: the claim states that the inline-reference resolver installed by
`register_substitution_handler` returns a literal text node holding the
stored value, regardless of the reference-site text.  The code contradicts
its own docstring ("the handler will replace the substitution reference
with the given text"): the inner handler's `text` parameter shadows the
enclosing `text`, so invoking the handler installed for stored value `"X"`
with reference-site text `"site"` returns the literal `"site"`, not
`"X"`. -/
theorem substitution_handler_returns_site_text :
    dlookup (register_substitution_handler ⟨[], []⟩ "a" "X").roles "substitution-a"
      = some (RoleHandler.substHandler "X") ∧
    RoleHandler.apply (RoleHandler.substHandler "X") "substitution-a" "|a|" "site" 1
      = ([Node.text "site"], []) ∧
    (∀ site : String,
      RoleHandler.apply (RoleHandler.substHandler "X") "substitution-a" "|a|" site 1
        = ([Node.text site], [])) ∧
    Node.text "site" ≠ Node.text "X" := by
  exact ⟨rfl, rfl, fun site => rfl, by decide⟩

/-- C2: the claim states that every `.. _NAME: VALUE` pair found in the
prolog is surfaced as a TargetMap output for a downstream checker.  The
extraction does find each pair, but `register_substitutions_and_targets` —
whose docstring says it "adds substitutions and link targets to the
docutils parser's substitution_defs and targets dictionaries" — never reads
its `targets` parameter, so the extracted TargetMap changes nothing and is
dropped: registration with any target map equals registration with an empty
one. -/
theorem target_map_extracted_but_dropped :
    findall_links ".. _home: https://example.com" =
      [("home", "https://example.com")] ∧
    extract_targets ".. _home: https://example.com" =
      [("home", "https://example.com")] ∧
    (∀ (reg : Registries) (substitutions targets : List (String × String)),
      register_substitutions_and_targets reg substitutions targets =
        register_substitutions_and_targets reg substitutions []) := by
  exact ⟨rfl, rfl, fun reg substitutions targets => rfl⟩

/-- C3: the SubstitutionMap is built by scanning the prolog for the
substitution pattern with later matches overwriting earlier ones for a
repeated name, and then overlaying every context substitution, the
context-sourced value winning any collision: the final lookup for a name is
its last context value if the context mentions it, else the last prolog
match.  Concretely, the spec's two examples. -/
theorem substitution_extraction_precedence (rst_prolog : String)
    (ctx : List (String × String)) (name : String) :
    (dlookup (extract_substitutions rst_prolog ctx) name =
      match lastAssoc ctx name with
      | some v => some v
      | none => lastAssoc (findall_subs rst_prolog) name) ∧
    extract_substitutions ".. |a| replace:: X\n.. |b| replace:: Y" [] =
      [("a", "X"), ("b", "Y")] ∧
    dlookup (extract_substitutions ".. |a| replace:: X" [("a", "Z")]) "a" =
      some "Z" := by
  refine ⟨?_, rfl, rfl⟩
  simp only [extract_substitutions, dlookup_foldl_dinsert]
  cases lastAssoc ctx name with
  | some v => rfl
  | none =>
    cases h : lastAssoc (findall_subs rst_prolog) name <;> rfl

/-- C4 counterexample: the claim says the locator returns the first
directory in the ancestor chain holding `conf.py`, with "not found" only
when no marker exists anywhere up to and including the filesystem root.
With the marker present only at the root, the chain-walk of the claim finds
the root, but `find_sphinx_confdir` stops before testing the root and
returns `none`. -/
theorem confdir_root_marker_missed :
    find_sphinx_confdir (fun p => p.isEmpty) ["r", "q", "p"] = none ∧
    locate_per_claim (fun p => p.isEmpty) ["r", "q", "p"] = some [] :=
  ⟨rfl, rfl⟩

/-- C4 amended: `find_sphinx_confdir` walks upward testing the starting
directory and each ancestor strictly below the filesystem root, returning
the first hit; the root itself is never tested, and `none` is returned once
the root is reached.  In particular locating from `/p/q/r` with the marker
at `/p` returns `/p`, and a tree with no marker anywhere yields `none`. -/
theorem confdir_walk_below_root (conf_exists : List String → Bool)
    (start : List String) :
    find_sphinx_confdir conf_exists start =
      (nonRootChain start).find? conf_exists ∧
    find_sphinx_confdir (fun p => p == ["p"]) ["r", "q", "p"] = some ["p"] ∧
    (∀ s, find_sphinx_confdir (fun _ => false) s = none) := by
  refine ⟨?_, rfl, ?_⟩
  · induction start with
    | nil => rfl
    | cons c cs ih =>
      simp only [find_sphinx_confdir, nonRootChain, List.find?]
      cases h : conf_exists (c :: cs) <;> simp [h, ih]
  · intro s
    induction s with
    | nil => rfl
    | cons c cs ih => simp [find_sphinx_confdir, ih]

/-- C6: `CodeBlockDirective.run` yields exactly one literal block whose text
is the content lines joined by `"\n"` and whose language is the first
argument, defaulting to `""` when absent; content `["a", "b"]` with no
argument gives language `""` and text `"a\nb"`. -/
theorem code_block_extractor_exact_text (arguments content : List String) :
    CodeBlockDirective.run ⟨arguments, content⟩ =
      [{ rawsource := String.intercalate "\n" content,
         text := String.intercalate "\n" content,
         classes := ["code-block"],
         language := arguments.headD "" }] ∧
    CodeBlockDirective.run ⟨[], ["a", "b"]⟩ =
      [{ rawsource := "a\nb", text := "a\nb", classes := ["code-block"],
         language := "" }] := by
  refine ⟨?_, rfl⟩
  cases arguments <;> rfl

/-- C8: registration into the parser's registry is last-write-wins and
total: registering a name twice, with different handlers, leaves exactly
the second handler, for directives and for roles alike; and
`ignore_directives_and_roles` applies these single-name registrations in
sequence over its lists. -/
theorem ignore_registration_last_write_wins (reg : Registries) (name : String)
    (h1 h2 : DirectiveHandler) (r1 r2 : RoleHandler)
    (ds roles : List String) :
    dlookup (register_directive (register_directive reg name h1) name h2).directives
      name = some h2 ∧
    dlookup (register_local_role (register_local_role reg name r1) name r2).roles
      name = some r2 ∧
    ignore_directives_and_roles reg (name :: ds) roles =
      ignore_directives_and_roles
        (register_directive reg name DirectiveHandler.ignored) ds roles ∧
    ignore_directives_and_roles reg [] (name :: roles) =
      roles.foldl (fun r role => register_local_role r role RoleHandler.ignoreRole)
        (register_local_role reg name RoleHandler.ignoreRole) := by
  refine ⟨?_, ?_, rfl, rfl⟩
  · simp [register_directive, dlookup_dinsert]
  · simp [register_local_role, dlookup_dinsert]

/-- C5: the WhitelistFilter removes exactly the elements equal to a
whitelist entry (the four code-content directives; no roles), preserves the
relative order (sublist) and the multiplicity of everything else, and
changes nothing more; consequently a whitelisted name is never passed to
ignore-registration, so `load_sphinx_ignores` leaves the registry entry of
every whitelisted name untouched. -/
theorem whitelist_never_ignored (ds rs : List String) (env : SphinxEnv)
    (reg reg2 : Registries) (w : String)
    (hw : w ∈ _DIRECTIVE_WHITELIST)
    (hload : load_sphinx_ignores env reg = Except.ok reg2) :
    (filter_whitelisted_directives_and_roles ds rs).1.Sublist ds ∧
    (filter_whitelisted_directives_and_roles ds rs).2 = rs ∧
    (∀ x, (filter_whitelisted_directives_and_roles ds rs).1.count x =
      if x ∈ _DIRECTIVE_WHITELIST then 0 else ds.count x) ∧
    (filter_whitelisted_directives_and_roles ds rs).1.count w = 0 ∧
    dlookup reg2.directives w = dlookup reg.directives w := by
  refine ⟨List.filter_sublist _, ?_, ?_, ?_, ?_⟩
  · simp [filter_whitelisted_directives_and_roles, _ROLE_WHITELIST, List.contains]
  · intro x
    exact count_filter_whitelist ds _DIRECTIVE_WHITELIST x
  · show List.count w (ds.filter (fun d => !(_DIRECTIVE_WHITELIST.contains d))) = 0
    rw [count_filter_whitelist ds _DIRECTIVE_WHITELIST w]
    simp [hw]
  · obtain ⟨installed, stdd, stdr, dc, dcpp, djs, dpy, regd, regr⟩ := env
    cases installed with
    | false =>
      exfalso
      simp [load_sphinx_ignores, install_guard] at hload
    | true =>
      simp only [load_sphinx_ignores, get_sphinx_directives_and_roles,
        install_guard, if_true, Except.ok.injEq] at hload
      subst hload
      simp only [ignore_directives_and_roles,
        roles_foldl_preserves_directives]
      apply dlookup_foldl_register_directive
      exact not_mem_filter_whitelist _ w hw

/-- C5 witness: a concrete instantiation on the installation `envW` whose
catalog contains `"code"` both from the standard domain table and from the
whitelist: after `load_sphinx_ignores` the `"code"` entry of the directive
registry is unchanged (still absent). -/
theorem whitelist_never_ignored_witness :
    ("code" ∈ _DIRECTIVE_WHITELIST) ∧
    (load_sphinx_ignores envW regW = Except.ok reg2W) ∧
    ((filter_whitelisted_directives_and_roles ["code", "note"] ["ref"]).1.Sublist
        ["code", "note"] ∧
     (filter_whitelisted_directives_and_roles ["code", "note"] ["ref"]).2 = ["ref"] ∧
     (∀ x, (filter_whitelisted_directives_and_roles ["code", "note"] ["ref"]).1.count x =
       if x ∈ _DIRECTIVE_WHITELIST then 0 else (["code", "note"] : List String).count x) ∧
     (filter_whitelisted_directives_and_roles ["code", "note"] ["ref"]).1.count "code" = 0 ∧
     dlookup reg2W.directives "code" = dlookup regW.directives "code") :=
  ⟨by decide, rfl,
    whitelist_never_ignored ["code", "note"] ["ref"] envW regW reg2W "code"
      (by decide) rfl⟩

/-- C7: the catalog is the standard-domain names, followed for each of the
four fixed domains (C, C++, JavaScript, Python, in that order) by the bare
names and then the domain-qualified `"<domain>:<name>"` names, followed by
the dynamically registered names — for directives and roles alike; each
domain contributes exactly twice its table, so duplicates across domains
are kept, as the concrete catalog `envW` (with `"member"` in two domains)
shows. -/
theorem sphinx_catalog_shape (env : SphinxEnv) :
    get_sphinx_directives_and_roles env =
      (if env.installed then
        Except.ok
          (env.std_directives ++ domainNames env.c Domain.directives ++
            domainNames env.cpp Domain.directives ++
            domainNames env.javascript Domain.directives ++
            domainNames env.python Domain.directives ++ env.registered_directives,
           env.std_roles ++ domainNames env.c Domain.roles ++
            domainNames env.cpp Domain.roles ++
            domainNames env.javascript Domain.roles ++
            domainNames env.python Domain.roles ++ env.registered_roles)
      else Except.error (SphinxError.featureUnavailable "sphinx")) ∧
    (∀ d : Domain, (domainNames d Domain.directives).length =
        2 * d.directives.length ∧
      (domainNames d Domain.roles).length = 2 * d.roles.length) ∧
    (okCatalog (get_sphinx_directives_and_roles envW)).1.count "member" = 2 := by
  refine ⟨?_, ?_, rfl⟩
  · obtain ⟨installed, stdd, stdr, dc, dcpp, djs, dpy, regd, regr⟩ := env
    cases installed with
    | false => rfl
    | true =>
      simp [get_sphinx_directives_and_roles, install_guard, domainNames,
        List.append_assoc]
  · intro d
    constructor <;> (simp [domainNames]; omega)

/-- C9: the two guarded operations fail exactly when Sphinx is not
installed, and the error raised is `FeatureUnavailable`; the other degraded
conditions return normal values instead of raising: a locator that finds no
marker returns `none`, a code directive with no language argument yields a
block with language `""`, and a prolog line matching neither pattern is
silently skipped by both scans. -/
theorem only_feature_unavailable_raises (env : SphinxEnv) (reg : Registries) :
    isOkB (get_sphinx_directives_and_roles env) = env.installed ∧
    isOkB (load_sphinx_ignores env reg) = env.installed ∧
    install_guard false "sphinx" =
      Except.error (SphinxError.featureUnavailable "sphinx") ∧
    (∀ s, find_sphinx_confdir (fun _ => false) s = none) ∧
    (∀ content : List String, CodeBlockDirective.run ⟨[], content⟩ =
      [{ rawsource := String.intercalate "\n" content,
         text := String.intercalate "\n" content,
         classes := ["code-block"], language := "" }]) ∧
    findall_subs ".. this line matches no pattern" = [] ∧
    findall_links ".. this line matches no pattern" = [] := by
  obtain ⟨installed, stdd, stdr, dc, dcpp, djs, dpy, regd, regr⟩ := env
  refine ⟨?_, ?_, rfl, ?_, fun content => rfl, rfl, rfl⟩
  · cases installed <;> rfl
  · cases installed <;> rfl
  · intro s
    induction s with
    | nil => rfl
    | cons c cs ih => simp [find_sphinx_confdir, ih]

/-- C10: when Sphinx is installed, `register_code_directive` is a complete
no-op for every combination of its three ignore flags: the registries are
returned unchanged and no handler is registered for `"code"`,
`"code-block"` or `"sourcecode"`. -/
theorem register_code_directive_noop_when_sphinx_installed
    (ignore_code_directive ignore_codeblock_directive
      ignore_sourcecode_directive : Bool) (reg : Registries) :
    register_code_directive true ignore_code_directive
      ignore_codeblock_directive ignore_sourcecode_directive reg = reg :=
  rfl

end Rstcheck
